import Mathlib

/-!
Verification of the TWINE block cipher implementation (package `twine`,
file `twine.go`) against its natural-language specification.

The Go source is shallowly embedded: bytes and nibbles are `Nat` (a Go
`byte` is a value below 256, a nibble a value below 16), byte slices are
`List Nat`, the `[37][8]byte` round-key array is a `List (List Nat)` of
37 rows of 8 entries, and the fallible parts (the constructor's key-size
check, and the runtime bounds panic that `Encrypt`/`Decrypt` hit when the
source slice is longer than 8 bytes) are modelled with `Except` and
`Option`.  Bitwise operations are Lean's `Nat` operations `>>>`, `<<<`,
`&&&`, `|||`, `^^^`, exactly mirroring the Go expressions.
-/

namespace Twine

/-- S-box, table 1 of the TWINE paper (Go variable `sbox`). -/
def sbox : List Nat :=
  [0x0C, 0x00, 0x0F, 0x0A, 0x02, 0x0B, 0x09, 0x05,
   0x08, 0x03, 0x0D, 0x07, 0x01, 0x0E, 0x06, 0x04]

/-- Nibble shuffle, table 2 (Go variable `shuf`). -/
def shuf : List Nat := [5, 0, 1, 4, 7, 12, 3, 8, 13, 6, 9, 2, 15, 10, 11, 14]

/-- Inverse nibble shuffle (Go variable `shufinv`). -/
def shufinv : List Nat := [1, 2, 11, 6, 3, 0, 9, 4, 7, 10, 13, 14, 5, 8, 15, 12]

/-- Round constants, table 3 (Go variable `roundconst`); index 0 is a filler. -/
def roundconst : List Nat :=
  [0x00,
   0x01, 0x02, 0x04, 0x08, 0x10, 0x20, 0x03, 0x06, 0x0c, 0x18, 0x30, 0x23,
   0x05, 0x0a, 0x14, 0x28, 0x13, 0x26, 0x0f, 0x1e, 0x3c, 0x3b, 0x35, 0x29,
   0x11, 0x22, 0x07, 0x0e, 0x1c, 0x38, 0x33, 0x25, 0x09, 0x12, 0x24, 0x0b]

/-- Cipher instance: the `twineCipher` struct.  `rk` is the `[37][8]byte`
round-key array (37 rows of 8 nibbles, row 0 unused). -/
structure twineCipher where
  rk : List (List Nat)

/-- Go type `KeySizeError int`; the stored value is the offending key
length, which is always a nonnegative slice length. -/
abbrev KeySizeError := Nat

/-- Error method of `KeySizeError`:
`"twine: invalid key size " + strconv.Itoa(int(k))`. -/
def KeySizeError.Error (k : KeySizeError) : String :=
  "twine: invalid key size " ++ Nat.repr k

/-- Unpack loop shared by `Encrypt` and `Decrypt`:
`for i := 0; i < len(src); i++ { x[2*i] = src[i] >> 4; x[2*i+1] = src[i] & 0x0f }`
over the local `var x [16]byte`.  When `2*i` reaches 16 (a source longer
than 8 bytes) the Go program panics with an index-out-of-range error;
that outcome is modelled as `none`. -/
def unpackLoop : List Nat → Nat → List Nat → Option (List Nat)
  | x, _, [] => some x
  | x, i, b :: rest =>
    if 2 * i < 16 then
      unpackLoop ((x.set (2 * i) (b >>> 4)).set (2 * i + 1) (b &&& 0x0f)) (i + 1) rest
    else none

/-- Repack loop shared by `Encrypt` and `Decrypt`:
`for i := 0; i < 8; i++ { dst[i] = x[2*i]<<4 | x[2*i+1] }`. -/
def pack (x : List Nat) : List Nat :=
  (List.range 8).map (fun i => ((x.getD (2 * i) 0) <<< 4) ||| (x.getD (2 * i + 1) 0))

/-- Inner round loop of `Encrypt`/`Decrypt`:
`for j := 0; j < 8; j++ { x[2*j+1] ^= sbox[x[2*j]^rk[j]] }`. -/
def feistel (rk : List Nat) (x : List Nat) : List Nat :=
  (List.range 8).foldl
    (fun x j =>
      x.set (2 * j + 1)
        ((x.getD (2 * j + 1) 0) ^^^ sbox.getD ((x.getD (2 * j) 0) ^^^ rk.getD j 0) 0))
    x

/-- Scatter loop of `Encrypt`/`Decrypt`:
`var xnext [16]byte; for h := 0; h < 16; h++ { xnext[tbl[h]] = x[h] }`. -/
def permute (tbl : List Nat) (x : List Nat) : List Nat :=
  (List.range 16).foldl
    (fun y h => y.set (tbl.getD h 0) (x.getD h 0))
    (List.replicate 16 0)

/-- Method `Encrypt(dst, src)` of `twineCipher`: unpack, 35 rounds of
Feistel step and shuffle, a final Feistel-only round with `rk[36]`, and
repack.  The destination is the returned 8-byte list; `none` models the
bounds panic on a source longer than 8 bytes. -/
def Encrypt (t : twineCipher) (src : List Nat) : Option (List Nat) :=
  (unpackLoop (List.replicate 16 0) 0 src).map (fun x =>
    pack (feistel (t.rk.getD 36 [])
      ((List.range' 1 35).foldl (fun x i => permute shuf (feistel (t.rk.getD i []) x)) x)))

/-- Method `Decrypt(dst, src)` of `twineCipher`; the round loop runs
`for i := 36; i >= 2; i--`, i.e. over `[36, 35, ..., 2]`, with the
inverse shuffle, and the last round uses `rk[1]`. -/
def Decrypt (t : twineCipher) (src : List Nat) : Option (List Nat) :=
  (unpackLoop (List.replicate 16 0) 0 src).map (fun x =>
    pack (feistel (t.rk.getD 1 [])
      (((List.range' 2 35).reverse).foldl
        (fun x i => permute shufinv (feistel (t.rk.getD i []) x)) x)))

/-- Key-unpack loop of `expandKeys80`/`expandKeys128`:
`for i := 0; i < len(key); i++ { wk[2*i] = key[i] >> 4; wk[2*i+1] = key[i] & 0x0f }`
into `var wk [n]byte`.  Both expansions are reached only through `New`
with a key of exactly `n / 2` bytes, so the writes never go out of the
array bounds there. -/
def unpackInto (n : Nat) (key : List Nat) : List Nat :=
  (List.range key.length).foldl
    (fun wk i => (wk.set (2 * i) ((key.getD i 0) >>> 4)).set (2 * i + 1) ((key.getD i 0) &&& 0x0f))
    (List.replicate n 0)

/-- Round-key tap of `expandKeys80`: the eight assignments
`t.rk[i][0] = wk[1]; ... t.rk[i][7] = wk[16]`. -/
def tap80 (wk : List Nat) : List Nat :=
  [wk.getD 1 0, wk.getD 3 0, wk.getD 4 0, wk.getD 6 0,
   wk.getD 13 0, wk.getD 14 0, wk.getD 15 0, wk.getD 16 0]

/-- State update of one round of `expandKeys80`: the non-linear mix,
round-constant injection, and the shift-with-twist of the 20-nibble
working key, exactly as the statements of the Go loop body. -/
def update80 (i : Nat) (wk : List Nat) : List Nat :=
  let wk := wk.set 1 ((wk.getD 1 0) ^^^ sbox.getD (wk.getD 0 0) 0)
  let wk := wk.set 4 ((wk.getD 4 0) ^^^ sbox.getD (wk.getD 16 0) 0)
  let con := roundconst.getD i 0
  let wk := wk.set 7 ((wk.getD 7 0) ^^^ (con >>> 3))
  let wk := wk.set 19 ((wk.getD 19 0) ^^^ (con &&& 7))
  let tmp0 := wk.getD 0 0
  let tmp1 := wk.getD 1 0
  let tmp2 := wk.getD 2 0
  let tmp3 := wk.getD 3 0
  let wk := (List.range 4).foldl
    (fun wk j =>
      let fourj := j * 4
      let wk := wk.set fourj (wk.getD (fourj + 4) 0)
      let wk := wk.set (fourj + 1) (wk.getD (fourj + 5) 0)
      let wk := wk.set (fourj + 2) (wk.getD (fourj + 6) 0)
      wk.set (fourj + 3) (wk.getD (fourj + 7) 0))
    wk
  let wk := wk.set 16 tmp1
  let wk := wk.set 17 tmp2
  let wk := wk.set 18 tmp3
  wk.set 19 tmp0

/-- Method `expandKeys80(key)`: unpack the 10-byte key into 20 nibbles,
then for `i := 1; i <= 35; i++` tap `rk[i]` and update the working key,
and finally tap `rk[36]`. -/
def expandKeys80 (key : List Nat) : List (List Nat) :=
  let wk := unpackInto 20 key
  let p := (List.range' 1 35).foldl
    (fun (p : List (List Nat) × List Nat) i => (p.1.set i (tap80 p.2), update80 i p.2))
    (List.replicate 37 (List.replicate 8 0), wk)
  p.1.set 36 (tap80 p.2)

/-- Round-key tap of `expandKeys128`: the eight assignments
`t.rk[i][0] = wk[2]; ... t.rk[i][7] = wk[31]`. -/
def tap128 (wk : List Nat) : List Nat :=
  [wk.getD 2 0, wk.getD 3 0, wk.getD 12 0, wk.getD 15 0,
   wk.getD 17 0, wk.getD 18 0, wk.getD 28 0, wk.getD 31 0]

/-- State update of one round of `expandKeys128` on the 32-nibble
working key. -/
def update128 (i : Nat) (wk : List Nat) : List Nat :=
  let wk := wk.set 1 ((wk.getD 1 0) ^^^ sbox.getD (wk.getD 0 0) 0)
  let wk := wk.set 4 ((wk.getD 4 0) ^^^ sbox.getD (wk.getD 16 0) 0)
  let wk := wk.set 23 ((wk.getD 23 0) ^^^ sbox.getD (wk.getD 30 0) 0)
  let con := roundconst.getD i 0
  let wk := wk.set 7 ((wk.getD 7 0) ^^^ (con >>> 3))
  let wk := wk.set 19 ((wk.getD 19 0) ^^^ (con &&& 7))
  let tmp0 := wk.getD 0 0
  let tmp1 := wk.getD 1 0
  let tmp2 := wk.getD 2 0
  let tmp3 := wk.getD 3 0
  let wk := (List.range 7).foldl
    (fun wk j =>
      let fourj := j * 4
      let wk := wk.set fourj (wk.getD (fourj + 4) 0)
      let wk := wk.set (fourj + 1) (wk.getD (fourj + 5) 0)
      let wk := wk.set (fourj + 2) (wk.getD (fourj + 6) 0)
      wk.set (fourj + 3) (wk.getD (fourj + 7) 0))
    wk
  let wk := wk.set 28 tmp1
  let wk := wk.set 29 tmp2
  let wk := wk.set 30 tmp3
  wk.set 31 tmp0

/-- Method `expandKeys128(key)`: unpack the 16-byte key into 32 nibbles,
then for `i := 1; i <= 35; i++` tap `rk[i]` and update the working key,
and finally tap `rk[36]`. -/
def expandKeys128 (key : List Nat) : List (List Nat) :=
  let wk := unpackInto 32 key
  let p := (List.range' 1 35).foldl
    (fun (p : List (List Nat) × List Nat) i => (p.1.set i (tap128 p.2), update128 i p.2))
    (List.replicate 37 (List.replicate 8 0), wk)
  p.1.set 36 (tap128 p.2)

/-- Constructor `New(key)`: reject any key whose length is neither 10
nor 16 with `KeySizeError(len(key))`, otherwise dispatch to the matching
key schedule. -/
def New (key : List Nat) : Except KeySizeError twineCipher :=
  let l := key.length
  if l ≠ 10 ∧ l ≠ 16 then Except.error l
  else if l = 10 then Except.ok ⟨expandKeys80 key⟩
  else Except.ok ⟨expandKeys128 key⟩

/-- Method `BlockSize()` of `twineCipher`. -/
def BlockSize (_ : twineCipher) : Nat := 8

/-! Specification-side definitions, used to state the refinement claims
about the algorithm structure (the spec's §4.3 and §4.5).  They follow
the wording of the specification, not the Go loops. -/

/-- Working key of the 80-bit schedule after `n` state updates, per the
spec: the unpacked 20-nibble register, updated once per round. -/
def wk80After (key : List Nat) : Nat → List Nat
  | 0 => unpackInto 20 key
  | n + 1 => update80 (n + 1) (wk80After key n)

/-- Working key of the 128-bit schedule after `n` state updates. -/
def wk128After (key : List Nat) : Nat → List Nat
  | 0 => unpackInto 32 key
  | n + 1 => update128 (n + 1) (wk128After key n)

/-- Unpacking per the spec's §3 wording: nibble `2*i` is the high nibble
of byte `i` and nibble `2*i+1` is the low nibble. -/
def unpackSpec (src : List Nat) : List Nat :=
  (List.range 16).map (fun k =>
    if k % 2 = 0 then (src.getD (k / 2) 0) / 16 else (src.getD (k / 2) 0) % 16)

/-- Feistel step per the spec's §4.5 wording: for `j in 0..7`,
`X[2j+1] ^= S[X[2j] ^ RK[i][j]]`, all eight pairs in parallel from the
incoming block. -/
def feistelSpec (rk : List Nat) (x : List Nat) : List Nat :=
  (List.range 16).map (fun k =>
    if k % 2 = 1 then (x.getD k 0) ^^^ sbox.getD ((x.getD (k - 1) 0) ^^^ rk.getD ((k - 1) / 2) 0) 0
    else x.getD k 0)

/-- Encryption per the spec's §4.5 wording: unpack, then for rounds 1..35
the Feistel step followed by the shuffle `Y[shuf[h]] = X[h]`, a final
Feistel-only round 36, and repacking with the high nibble of byte `k`
taken from `X[2k]` and the low nibble from `X[2k+1]`. -/
def encryptSpec (rk : List (List Nat)) (src : List Nat) : List Nat :=
  let x := unpackSpec src
  let x := (List.range' 1 35).foldl (fun x i => permute shuf (feistelSpec (rk.getD i []) x)) x
  let x := feistelSpec (rk.getD 36 []) x
  (List.range 8).map (fun k => (x.getD (2 * k) 0) * 16 + (x.getD (2 * k + 1) 0))

/-! Helper lemmas: destructuring lists of known length into literals. -/

theorem cons_of_len (x : List Nat) (n : Nat) (h : x.length = n + 1) :
    ∃ a t, x = a :: t ∧ t.length = n := by
  cases x with
  | nil => simp at h
  | cons a t => exact ⟨a, t, rfl, by simpa using h⟩

theorem len8_destruct (x : List Nat) (h : x.length = 8) :
    ∃ b0 b1 b2 b3 b4 b5 b6 b7 : Nat, x = [b0, b1, b2, b3, b4, b5, b6, b7] := by
  obtain ⟨b0, x1, rfl, h1⟩ := cons_of_len x 7 h
  obtain ⟨b1, x2, rfl, h2⟩ := cons_of_len x1 6 h1
  obtain ⟨b2, x3, rfl, h3⟩ := cons_of_len x2 5 h2
  obtain ⟨b3, x4, rfl, h4⟩ := cons_of_len x3 4 h3
  obtain ⟨b4, x5, rfl, h5⟩ := cons_of_len x4 3 h4
  obtain ⟨b5, x6, rfl, h6⟩ := cons_of_len x5 2 h5
  obtain ⟨b6, x7, rfl, h7⟩ := cons_of_len x6 1 h6
  obtain ⟨b7, x8, rfl, h8⟩ := cons_of_len x7 0 h7
  obtain rfl := List.length_eq_zero.mp h8
  exact ⟨b0, b1, b2, b3, b4, b5, b6, b7, rfl⟩

theorem len16_destruct (x : List Nat) (h : x.length = 16) :
    ∃ a0 a1 a2 a3 a4 a5 a6 a7 a8 a9 a10 a11 a12 a13 a14 a15 : Nat,
      x = [a0, a1, a2, a3, a4, a5, a6, a7, a8, a9, a10, a11, a12, a13, a14, a15] := by
  obtain ⟨a0, x1, rfl, h1⟩ := cons_of_len x 15 h
  obtain ⟨a1, x2, rfl, h2⟩ := cons_of_len x1 14 h1
  obtain ⟨a2, x3, rfl, h3⟩ := cons_of_len x2 13 h2
  obtain ⟨a3, x4, rfl, h4⟩ := cons_of_len x3 12 h3
  obtain ⟨a4, x5, rfl, h5⟩ := cons_of_len x4 11 h4
  obtain ⟨a5, x6, rfl, h6⟩ := cons_of_len x5 10 h5
  obtain ⟨a6, x7, rfl, h7⟩ := cons_of_len x6 9 h6
  obtain ⟨a7, x8, rfl, h8⟩ := cons_of_len x7 8 h7
  obtain ⟨a8, x9, rfl, h9⟩ := cons_of_len x8 7 h8
  obtain ⟨a9, x10, rfl, h10⟩ := cons_of_len x9 6 h9
  obtain ⟨a10, x11, rfl, h11⟩ := cons_of_len x10 5 h10
  obtain ⟨a11, x12, rfl, h12⟩ := cons_of_len x11 4 h11
  obtain ⟨a12, x13, rfl, h13⟩ := cons_of_len x12 3 h12
  obtain ⟨a13, x14, rfl, h14⟩ := cons_of_len x13 2 h13
  obtain ⟨a14, x15, rfl, h15⟩ := cons_of_len x14 1 h14
  obtain ⟨a15, x16, rfl, h16⟩ := cons_of_len x15 0 h15
  obtain rfl := List.length_eq_zero.mp h16
  exact ⟨a0, a1, a2, a3, a4, a5, a6, a7, a8, a9, a10, a11, a12, a13, a14, a15, rfl⟩

/-! Helper lemmas: symbolic evaluation of the block-transform pieces on
length-16 literals. -/

set_option maxHeartbeats 800000 in
theorem feistel_eval (rk : List Nat)
    (a0 a1 a2 a3 a4 a5 a6 a7 a8 a9 a10 a11 a12 a13 a14 a15 : Nat) :
    feistel rk [a0, a1, a2, a3, a4, a5, a6, a7, a8, a9, a10, a11, a12, a13, a14, a15] =
      [a0, a1 ^^^ sbox.getD (a0 ^^^ rk.getD 0 0) 0,
       a2, a3 ^^^ sbox.getD (a2 ^^^ rk.getD 1 0) 0,
       a4, a5 ^^^ sbox.getD (a4 ^^^ rk.getD 2 0) 0,
       a6, a7 ^^^ sbox.getD (a6 ^^^ rk.getD 3 0) 0,
       a8, a9 ^^^ sbox.getD (a8 ^^^ rk.getD 4 0) 0,
       a10, a11 ^^^ sbox.getD (a10 ^^^ rk.getD 5 0) 0,
       a12, a13 ^^^ sbox.getD (a12 ^^^ rk.getD 6 0) 0,
       a14, a15 ^^^ sbox.getD (a14 ^^^ rk.getD 7 0) 0] := rfl

set_option maxHeartbeats 800000 in
theorem permute_shuf_eval (a0 a1 a2 a3 a4 a5 a6 a7 a8 a9 a10 a11 a12 a13 a14 a15 : Nat) :
    permute shuf [a0, a1, a2, a3, a4, a5, a6, a7, a8, a9, a10, a11, a12, a13, a14, a15] =
      [a1, a2, a11, a6, a3, a0, a9, a4, a7, a10, a13, a14, a5, a8, a15, a12] := rfl

set_option maxHeartbeats 800000 in
theorem permute_shufinv_eval (a0 a1 a2 a3 a4 a5 a6 a7 a8 a9 a10 a11 a12 a13 a14 a15 : Nat) :
    permute shufinv [a0, a1, a2, a3, a4, a5, a6, a7, a8, a9, a10, a11, a12, a13, a14, a15] =
      [a5, a0, a1, a4, a7, a12, a3, a8, a13, a6, a9, a2, a15, a10, a11, a14] := rfl

set_option maxHeartbeats 800000 in
theorem unpack8_eval (b0 b1 b2 b3 b4 b5 b6 b7 : Nat) :
    unpackLoop (List.replicate 16 0) 0 [b0, b1, b2, b3, b4, b5, b6, b7] =
      some [b0 >>> 4, b0 &&& 0x0f, b1 >>> 4, b1 &&& 0x0f, b2 >>> 4, b2 &&& 0x0f,
            b3 >>> 4, b3 &&& 0x0f, b4 >>> 4, b4 &&& 0x0f, b5 >>> 4, b5 &&& 0x0f,
            b6 >>> 4, b6 &&& 0x0f, b7 >>> 4, b7 &&& 0x0f] := rfl

set_option maxHeartbeats 800000 in
theorem pack_eval (a0 a1 a2 a3 a4 a5 a6 a7 a8 a9 a10 a11 a12 a13 a14 a15 : Nat) :
    pack [a0, a1, a2, a3, a4, a5, a6, a7, a8, a9, a10, a11, a12, a13, a14, a15] =
      [a0 <<< 4 ||| a1, a2 <<< 4 ||| a3, a4 <<< 4 ||| a5, a6 <<< 4 ||| a7,
       a8 <<< 4 ||| a9, a10 <<< 4 ||| a11, a12 <<< 4 ||| a13, a14 <<< 4 ||| a15] := rfl

/-! Helper lemmas: lengths and inverses of the round pieces. -/

theorem feistel_length (rk x : List Nat) : (feistel rk x).length = x.length := by
  have key : ∀ (l : List Nat) (y : List Nat),
      (l.foldl (fun x j =>
        x.set (2 * j + 1)
          ((x.getD (2 * j + 1) 0) ^^^ sbox.getD ((x.getD (2 * j) 0) ^^^ rk.getD j 0) 0)) y).length
        = y.length := by
    intro l
    induction l with
    | nil => intro y; rfl
    | cons a l ih => intro y; rw [List.foldl_cons, ih, List.length_set]
  exact key _ x

theorem permute_length (tbl x : List Nat) : (permute tbl x).length = 16 := by
  have key : ∀ (l : List Nat) (y : List Nat),
      (l.foldl (fun y h => y.set (tbl.getD h 0) (x.getD h 0)) y).length = y.length := by
    intro l
    induction l with
    | nil => intro y; rfl
    | cons a l ih => intro y; rw [List.foldl_cons, ih, List.length_set]
  rw [permute, key, List.length_replicate]

theorem feistel_invol (rk : List Nat) (x : List Nat) (h : x.length = 16) :
    feistel rk (feistel rk x) = x := by
  obtain ⟨a0, a1, a2, a3, a4, a5, a6, a7, a8, a9, a10, a11, a12, a13, a14, a15, rfl⟩ :=
    len16_destruct x h
  simp [feistel_eval, Nat.xor_assoc, Nat.xor_self, Nat.xor_zero]

theorem permute_shufinv_shuf (x : List Nat) (h : x.length = 16) :
    permute shufinv (permute shuf x) = x := by
  obtain ⟨a0, a1, a2, a3, a4, a5, a6, a7, a8, a9, a10, a11, a12, a13, a14, a15, rfl⟩ :=
    len16_destruct x h
  rw [permute_shuf_eval, permute_shufinv_eval]

theorem permute_shuf_shufinv (x : List Nat) (h : x.length = 16) :
    permute shuf (permute shufinv x) = x := by
  obtain ⟨a0, a1, a2, a3, a4, a5, a6, a7, a8, a9, a10, a11, a12, a13, a14, a15, rfl⟩ :=
    len16_destruct x h
  rw [permute_shufinv_eval, permute_shuf_eval]

theorem fold_round_length (tbl : List Nat) (rk : Nat → List Nat) (l : List Nat) :
    ∀ x : List Nat, x.length = 16 →
      (l.foldl (fun x i => permute tbl (feistel (rk i) x)) x).length = 16 := by
  induction l with
  | nil => intro x hx; exact hx
  | cons a l ih => intro x _; rw [List.foldl_cons]; exact ih _ (permute_length _ _)

/-- Core of the decrypt-of-encrypt round trip on the nibble state: the
reversed decryption rounds with the inverse shuffle undo the encryption
rounds, for any assignment of round keys. -/
theorem dec_enc_aux (rk : Nat → List Nat) :
    ∀ (n s : Nat) (x : List Nat), x.length = 16 →
      feistel (rk s)
        (((List.range' (s + 1) n).reverse).foldl (fun y i => permute shufinv (feistel (rk i) y))
          (feistel (rk (s + n))
            ((List.range' s n).foldl (fun x i => permute shuf (feistel (rk i) x)) x))) = x := by
  intro n
  induction n with
  | zero =>
    intro s x hx
    exact feistel_invol _ _ hx
  | succ n ih =>
    intro s x hx
    rw [List.range'_1_concat s n, List.foldl_append, List.foldl_cons, List.foldl_nil]
    rw [List.range'_1_concat (s + 1) n, List.reverse_append, List.reverse_singleton,
      List.singleton_append, List.foldl_cons]
    have hu : ((List.range' s n).foldl (fun x i => permute shuf (feistel (rk i) x)) x).length = 16 :=
      fold_round_length _ _ _ _ hx
    have hidx : s + 1 + n = s + (n + 1) := by omega
    rw [hidx]
    rw [feistel_invol _ _ (permute_length _ _)]
    rw [permute_shufinv_shuf _ (by rw [feistel_length]; exact hu)]
    exact ih s x hx

/-- Core of the encrypt-of-decrypt round trip on the nibble state. -/
theorem enc_dec_aux (rk : Nat → List Nat) :
    ∀ (n s : Nat) (y : List Nat), y.length = 16 →
      feistel (rk (s + n))
        ((List.range' s n).foldl (fun x i => permute shuf (feistel (rk i) x))
          (feistel (rk s)
            (((List.range' (s + 1) n).reverse).foldl
              (fun y i => permute shufinv (feistel (rk i) y)) y))) = y := by
  intro n
  induction n with
  | zero =>
    intro s y hy
    exact feistel_invol _ _ hy
  | succ n ih =>
    intro s y hy
    rw [List.range'_succ (s + 1) n 1, List.reverse_cons, List.foldl_append, List.foldl_cons,
      List.foldl_nil]
    rw [List.range'_succ s n 1, List.foldl_cons]
    rw [feistel_invol _ _ (permute_length _ _)]
    rw [permute_shuf_shufinv _ (by
      rw [feistel_length]
      exact fold_round_length _ _ _ _ hy)]
    rw [show s + (n + 1) = s + 1 + n from by omega]
    exact ih (s + 1) y hy

/-! Helper lemmas: arithmetic bridges between the bit operations of the
source and their div/mod readings, and nibble-bound propagation. -/

theorem and15_eq_mod (b : Nat) : b &&& 0x0f = b % 16 := Nat.and_pow_two_sub_one_eq_mod b 4

theorem shiftR4_eq_div (b : Nat) : b >>> 4 = b / 16 := Nat.shiftRight_eq_div_pow b 4

theorem shiftL4_or_eq (a b : Nat) (hb : b < 16) : a <<< 4 ||| b = 16 * a + b := by
  rw [Nat.shiftLeft_eq, Nat.mul_comm]
  rw [← Nat.mul_add_lt_is_or (by simpa using hb) a]

theorem pack_unpack_byte (b : Nat) : ((b >>> 4) <<< 4) ||| (b &&& 0x0f) = b := by
  rw [and15_eq_mod, shiftR4_eq_div, shiftL4_or_eq _ _ (Nat.mod_lt _ (by norm_num))]
  omega

theorem unpack_hi (a b : Nat) (hb : b < 16) : (a <<< 4 ||| b) >>> 4 = a := by
  rw [shiftL4_or_eq _ _ hb, shiftR4_eq_div]
  omega

theorem unpack_lo (a b : Nat) (hb : b < 16) : (a <<< 4 ||| b) &&& 0x0f = b := by
  rw [shiftL4_or_eq _ _ hb, and15_eq_mod]
  omega

theorem shiftR4_lt (b : Nat) (hb : b < 256) : b >>> 4 < 16 := by
  rw [shiftR4_eq_div]; omega

theorem and15_lt (b : Nat) : b &&& 0x0f < 16 :=
  Nat.lt_of_le_of_lt Nat.and_le_right (by norm_num)

theorem xor_lt_16 {a b : Nat} (ha : a < 16) (hb : b < 16) : a ^^^ b < 16 :=
  Nat.xor_lt_two_pow (n := 4) (by simpa using ha) (by simpa using hb)

theorem getD_lt_bound (l : List Nat) (m : Nat) (h : ∀ v ∈ l, v < m) (hm : 0 < m) (i : Nat) :
    l.getD i 0 < m := by
  rcases Nat.lt_or_ge i l.length with hi | hi
  · rw [List.getD_eq_getElem?_getD, List.getElem?_eq_getElem hi, Option.getD_some]
    exact h _ (List.getElem_mem hi)
  · rw [List.getD_eq_getElem?_getD, List.getElem?_eq_none hi, Option.getD_none]
    exact hm

theorem set_forall_lt {l : List Nat} {m : Nat} (h : ∀ v ∈ l, v < m) {a : Nat} (ha : a < m)
    (n : Nat) : ∀ v ∈ l.set n a, v < m := by
  intro v hv
  rcases List.mem_or_eq_of_mem_set hv with hv | rfl
  · exact h _ hv
  · exact ha

theorem sbox_getD_lt (i : Nat) : sbox.getD i 0 < 16 := by
  have : ∀ v ∈ sbox, v < 16 := by decide
  exact getD_lt_bound _ _ this (by norm_num) i

theorem feistel_bound (rk x : List Nat) (h : ∀ v ∈ x, v < 16) : ∀ v ∈ feistel rk x, v < 16 := by
  rw [feistel]
  have key : ∀ (l : List Nat) (y : List Nat), (∀ v ∈ y, v < 16) →
      ∀ v ∈ (l.foldl (fun x j =>
        x.set (2 * j + 1)
          ((x.getD (2 * j + 1) 0) ^^^ sbox.getD ((x.getD (2 * j) 0) ^^^ rk.getD j 0) 0)) y),
        v < 16 := by
    intro l
    induction l with
    | nil => intro y hy; exact hy
    | cons a l ih =>
      intro y hy
      rw [List.foldl_cons]
      refine ih _ (set_forall_lt hy ?_ _)
      exact Nat.xor_lt_two_pow (n := 4) (by simpa using getD_lt_bound _ _ hy (by norm_num) _)
        (by simpa using sbox_getD_lt _)
  exact key _ x h

theorem permute_bound (tbl x : List Nat) (h : ∀ v ∈ x, v < 16) : ∀ v ∈ permute tbl x, v < 16 := by
  rw [permute]
  have key : ∀ (l : List Nat) (y : List Nat), (∀ v ∈ y, v < 16) →
      ∀ v ∈ (l.foldl (fun y h => y.set (tbl.getD h 0) (x.getD h 0)) y), v < 16 := by
    intro l
    induction l with
    | nil => intro y hy; exact hy
    | cons a l ih =>
      intro y hy
      rw [List.foldl_cons]
      exact ih _ (set_forall_lt hy (getD_lt_bound _ _ h (by norm_num) _) _)
  refine key _ _ ?_
  intro v hv
  rw [List.eq_of_mem_replicate hv]
  norm_num

theorem fold_round_bound (tbl : List Nat) (rk : Nat → List Nat) (l : List Nat) :
    ∀ x : List Nat, (∀ v ∈ x, v < 16) →
      ∀ v ∈ (l.foldl (fun x i => permute tbl (feistel (rk i) x)) x), v < 16 := by
  induction l with
  | nil => intro x hx; exact hx
  | cons a l ih =>
    intro x hx
    rw [List.foldl_cons]
    exact ih _ (permute_bound _ _ (feistel_bound _ _ hx))

/-! Helper lemmas: packing and unpacking invert each other on the byte
and nibble levels. -/

theorem unpack_pack (y : List Nat) (h : y.length = 16) (hlt : ∀ v ∈ y, v < 16) :
    unpackLoop (List.replicate 16 0) 0 (pack y) = some y := by
  obtain ⟨a0, a1, a2, a3, a4, a5, a6, a7, a8, a9, a10, a11, a12, a13, a14, a15, rfl⟩ :=
    len16_destruct y h
  simp only [List.forall_mem_cons, List.forall_mem_nil] at hlt
  obtain ⟨h0, h1, h2, h3, h4, h5, h6, h7, h8, h9, h10, h11, h12, h13, h14, h15, -⟩ := hlt
  rw [pack_eval, unpack8_eval]
  rw [unpack_hi _ _ h1, unpack_lo _ _ h1, unpack_hi _ _ h3, unpack_lo _ _ h3,
    unpack_hi _ _ h5, unpack_lo _ _ h5, unpack_hi _ _ h7, unpack_lo _ _ h7,
    unpack_hi _ _ h9, unpack_lo _ _ h9, unpack_hi _ _ h11, unpack_lo _ _ h11,
    unpack_hi _ _ h13, unpack_lo _ _ h13, unpack_hi _ _ h15, unpack_lo _ _ h15]

theorem pack_unpack8 (b0 b1 b2 b3 b4 b5 b6 b7 : Nat) :
    pack [b0 >>> 4, b0 &&& 0x0f, b1 >>> 4, b1 &&& 0x0f, b2 >>> 4, b2 &&& 0x0f,
          b3 >>> 4, b3 &&& 0x0f, b4 >>> 4, b4 &&& 0x0f, b5 >>> 4, b5 &&& 0x0f,
          b6 >>> 4, b6 &&& 0x0f, b7 >>> 4, b7 &&& 0x0f] =
      [b0, b1, b2, b3, b4, b5, b6, b7] := by
  rw [pack_eval]
  simp only [pack_unpack_byte]

/-- Decrypting an encryption result recovers the plaintext, for any
round-key table at all: only the Feistel structure and the shuffle pair
matter. -/
theorem encrypt_then_decrypt (c : twineCipher) (P : List Nat) (hP : P.length = 8)
    (hb : ∀ b ∈ P, b < 256) : (Encrypt c P).bind (Decrypt c) = some P := by
  obtain ⟨b0, b1, b2, b3, b4, b5, b6, b7, rfl⟩ := len8_destruct P hP
  simp only [List.forall_mem_cons, List.forall_mem_nil] at hb
  obtain ⟨g0, g1, g2, g3, g4, g5, g6, g7, -⟩ := hb
  have hx0 : ∀ v ∈ [b0 >>> 4, b0 &&& 0x0f, b1 >>> 4, b1 &&& 0x0f, b2 >>> 4, b2 &&& 0x0f,
      b3 >>> 4, b3 &&& 0x0f, b4 >>> 4, b4 &&& 0x0f, b5 >>> 4, b5 &&& 0x0f,
      b6 >>> 4, b6 &&& 0x0f, b7 >>> 4, b7 &&& 0x0f], v < 16 := by
    simp only [List.forall_mem_cons, List.forall_mem_nil]
    exact ⟨shiftR4_lt _ g0, and15_lt _, shiftR4_lt _ g1, and15_lt _, shiftR4_lt _ g2, and15_lt _,
      shiftR4_lt _ g3, and15_lt _, shiftR4_lt _ g4, and15_lt _, shiftR4_lt _ g5, and15_lt _,
      shiftR4_lt _ g6, and15_lt _, shiftR4_lt _ g7, and15_lt _, by simp⟩
  rw [Encrypt, unpack8_eval, Option.map_some', Option.some_bind]
  have hxe_len : (feistel (twineCipher.rk c |>.getD 36 [])
      ((List.range' 1 35).foldl
        (fun x i => permute shuf (feistel (twineCipher.rk c |>.getD i []) x))
        [b0 >>> 4, b0 &&& 0x0f, b1 >>> 4, b1 &&& 0x0f, b2 >>> 4, b2 &&& 0x0f,
         b3 >>> 4, b3 &&& 0x0f, b4 >>> 4, b4 &&& 0x0f, b5 >>> 4, b5 &&& 0x0f,
         b6 >>> 4, b6 &&& 0x0f, b7 >>> 4, b7 &&& 0x0f])).length = 16 := by
    rw [feistel_length]
    exact fold_round_length shuf (fun i => twineCipher.rk c |>.getD i []) _ _ rfl
  have hxe_bound := feistel_bound (twineCipher.rk c |>.getD 36 []) _
    (fold_round_bound shuf (fun i => twineCipher.rk c |>.getD i []) (List.range' 1 35) _ hx0)
  rw [Decrypt, unpack_pack _ hxe_len hxe_bound, Option.map_some']
  have hrt := dec_enc_aux (fun i => twineCipher.rk c |>.getD i []) 35 1
    [b0 >>> 4, b0 &&& 0x0f, b1 >>> 4, b1 &&& 0x0f, b2 >>> 4, b2 &&& 0x0f,
     b3 >>> 4, b3 &&& 0x0f, b4 >>> 4, b4 &&& 0x0f, b5 >>> 4, b5 &&& 0x0f,
     b6 >>> 4, b6 &&& 0x0f, b7 >>> 4, b7 &&& 0x0f] rfl
  simp only [show (1 : Nat) + 35 = 36 from rfl, show (1 : Nat) + 1 = 2 from rfl] at hrt
  rw [hrt, pack_unpack8]

/-- Encrypting a decryption result recovers the ciphertext. -/
theorem decrypt_then_encrypt (c : twineCipher) (P : List Nat) (hP : P.length = 8)
    (hb : ∀ b ∈ P, b < 256) : (Decrypt c P).bind (Encrypt c) = some P := by
  obtain ⟨b0, b1, b2, b3, b4, b5, b6, b7, rfl⟩ := len8_destruct P hP
  simp only [List.forall_mem_cons, List.forall_mem_nil] at hb
  obtain ⟨g0, g1, g2, g3, g4, g5, g6, g7, -⟩ := hb
  have hx0 : ∀ v ∈ [b0 >>> 4, b0 &&& 0x0f, b1 >>> 4, b1 &&& 0x0f, b2 >>> 4, b2 &&& 0x0f,
      b3 >>> 4, b3 &&& 0x0f, b4 >>> 4, b4 &&& 0x0f, b5 >>> 4, b5 &&& 0x0f,
      b6 >>> 4, b6 &&& 0x0f, b7 >>> 4, b7 &&& 0x0f], v < 16 := by
    simp only [List.forall_mem_cons, List.forall_mem_nil]
    exact ⟨shiftR4_lt _ g0, and15_lt _, shiftR4_lt _ g1, and15_lt _, shiftR4_lt _ g2, and15_lt _,
      shiftR4_lt _ g3, and15_lt _, shiftR4_lt _ g4, and15_lt _, shiftR4_lt _ g5, and15_lt _,
      shiftR4_lt _ g6, and15_lt _, shiftR4_lt _ g7, and15_lt _, by simp⟩
  rw [Decrypt, unpack8_eval, Option.map_some', Option.some_bind]
  have hxd_len : (feistel (twineCipher.rk c |>.getD 1 [])
      (((List.range' 2 35).reverse).foldl
        (fun x i => permute shufinv (feistel (twineCipher.rk c |>.getD i []) x))
        [b0 >>> 4, b0 &&& 0x0f, b1 >>> 4, b1 &&& 0x0f, b2 >>> 4, b2 &&& 0x0f,
         b3 >>> 4, b3 &&& 0x0f, b4 >>> 4, b4 &&& 0x0f, b5 >>> 4, b5 &&& 0x0f,
         b6 >>> 4, b6 &&& 0x0f, b7 >>> 4, b7 &&& 0x0f])).length = 16 := by
    rw [feistel_length]
    exact fold_round_length shufinv (fun i => twineCipher.rk c |>.getD i []) _ _ rfl
  have hxd_bound := feistel_bound (twineCipher.rk c |>.getD 1 []) _
    (fold_round_bound shufinv (fun i => twineCipher.rk c |>.getD i [])
      ((List.range' 2 35).reverse) _ hx0)
  rw [Encrypt, unpack_pack _ hxd_len hxd_bound, Option.map_some']
  have hrt := enc_dec_aux (fun i => twineCipher.rk c |>.getD i []) 35 1
    [b0 >>> 4, b0 &&& 0x0f, b1 >>> 4, b1 &&& 0x0f, b2 >>> 4, b2 &&& 0x0f,
     b3 >>> 4, b3 &&& 0x0f, b4 >>> 4, b4 &&& 0x0f, b5 >>> 4, b5 &&& 0x0f,
     b6 >>> 4, b6 &&& 0x0f, b7 >>> 4, b7 &&& 0x0f] rfl
  simp only [show (1 : Nat) + 35 = 36 from rfl, show (1 : Nat) + 1 = 2 from rfl] at hrt
  rw [hrt, pack_unpack8]

/-! Helper lemmas: symbolic evaluation of the key-schedule pieces, and
the two known-answer computations (placed before `update80` and
`update128` are made irreducible, since they reduce through them). -/

theorem update80_eval (i : Nat)
    (a0 a1 a2 a3 a4 a5 a6 a7 a8 a9 a10 a11 a12 a13 a14 a15 a16 a17 a18 a19 : Nat) :
    update80 i [a0, a1, a2, a3, a4, a5, a6, a7, a8, a9, a10, a11, a12, a13, a14, a15,
      a16, a17, a18, a19] =
      [a4 ^^^ sbox.getD a16 0, a5, a6, a7 ^^^ (roundconst.getD i 0 >>> 3),
       a8, a9, a10, a11, a12, a13, a14, a15, a16, a17, a18,
       a19 ^^^ (roundconst.getD i 0 &&& 7),
       a1 ^^^ sbox.getD a0 0, a2, a3, a0] := by
  simp [update80, List.range_succ]

theorem update128_eval (i : Nat)
    (a0 a1 a2 a3 a4 a5 a6 a7 a8 a9 a10 a11 a12 a13 a14 a15 a16 a17 a18 a19
     a20 a21 a22 a23 a24 a25 a26 a27 a28 a29 a30 a31 : Nat) :
    update128 i [a0, a1, a2, a3, a4, a5, a6, a7, a8, a9, a10, a11, a12, a13, a14, a15,
      a16, a17, a18, a19, a20, a21, a22, a23, a24, a25, a26, a27, a28, a29, a30, a31] =
      [a4 ^^^ sbox.getD a16 0, a5, a6, a7 ^^^ (roundconst.getD i 0 >>> 3),
       a8, a9, a10, a11, a12, a13, a14, a15, a16, a17, a18,
       a19 ^^^ (roundconst.getD i 0 &&& 7),
       a20, a21, a22, a23 ^^^ sbox.getD a30 0, a24, a25, a26, a27, a28, a29, a30, a31,
       a1 ^^^ sbox.getD a0 0, a2, a3, a0] := by
  simp [update128, List.range_succ]

theorem unpack10_eval (k0 k1 k2 k3 k4 k5 k6 k7 k8 k9 : Nat) :
    unpackInto 20 [k0, k1, k2, k3, k4, k5, k6, k7, k8, k9] =
      [k0 >>> 4, k0 &&& 0x0f, k1 >>> 4, k1 &&& 0x0f, k2 >>> 4, k2 &&& 0x0f,
       k3 >>> 4, k3 &&& 0x0f, k4 >>> 4, k4 &&& 0x0f, k5 >>> 4, k5 &&& 0x0f,
       k6 >>> 4, k6 &&& 0x0f, k7 >>> 4, k7 &&& 0x0f, k8 >>> 4, k8 &&& 0x0f,
       k9 >>> 4, k9 &&& 0x0f] := by
  simp [unpackInto, List.range_succ, List.replicate]

set_option maxHeartbeats 1600000 in
theorem vector80_compute :
    (New [0x00, 0x11, 0x22, 0x33, 0x44, 0x55, 0x66, 0x77, 0x88, 0x99]).map
        (fun c => Encrypt c [0x01, 0x23, 0x45, 0x67, 0x89, 0xAB, 0xCD, 0xEF]) =
      Except.ok (some [0x7C, 0x1F, 0x0F, 0x80, 0xB1, 0xDF, 0x9C, 0x28]) := rfl

set_option maxHeartbeats 1600000 in
theorem vector128_compute :
    (New [0x00, 0x11, 0x22, 0x33, 0x44, 0x55, 0x66, 0x77, 0x88, 0x99,
          0xAA, 0xBB, 0xCC, 0xDD, 0xEE, 0xFF]).map
        (fun c => Encrypt c [0x01, 0x23, 0x45, 0x67, 0x89, 0xAB, 0xCD, 0xEF]) =
      Except.ok (some [0x97, 0x9F, 0xF9, 0xB3, 0x79, 0xB5, 0xA9, 0xB8]) := rfl

attribute [irreducible] update80 update128

/-! Helper lemmas: characterizing the round-key rows produced by the two
key schedules in terms of the per-round working-key states. -/

def expand80Fold (key : List Nat) (n : Nat) : List (List Nat) × List Nat :=
  (List.range' 1 n).foldl
    (fun (p : List (List Nat) × List Nat) i => (p.1.set i (tap80 p.2), update80 i p.2))
    (List.replicate 37 (List.replicate 8 0), unpackInto 20 key)

theorem expandKeys80_eq_fold (key : List Nat) :
    expandKeys80 key = (expand80Fold key 35).1.set 36 (tap80 (expand80Fold key 35).2) := rfl

theorem getD_set_eq_list {α : Type} (l : List α) (m : Nat) (v d : α) (h : m < l.length) :
    (l.set m v).getD m d = v := by
  rw [List.getD_eq_getElem?_getD, List.getElem?_set_self h, Option.getD_some]

theorem getD_set_ne_list {α : Type} (l : List α) (m j : Nat) (v d : α) (h : m ≠ j) :
    (l.set m v).getD j d = l.getD j d := by
  rw [List.getD_eq_getElem?_getD, List.getElem?_set_ne h, ← List.getD_eq_getElem?_getD]

theorem expand80Fold_spec (key : List Nat) :
    ∀ n, (expand80Fold key n).2 = wk80After key n ∧
      (expand80Fold key n).1.length = 37 ∧
      (∀ j, 1 ≤ j → j ≤ n → j ≤ 36 →
        (expand80Fold key n).1.getD j [] = tap80 (wk80After key (j - 1))) := by
  intro n
  induction n with
  | zero =>
    refine ⟨rfl, by simp [expand80Fold], ?_⟩
    intro j h1 h2 _
    omega
  | succ n ih =>
    obtain ⟨ih1, ih2, ih3⟩ := ih
    have hstep : expand80Fold key (n + 1) =
        ((expand80Fold key n).1.set (1 + n) (tap80 (expand80Fold key n).2),
         update80 (1 + n) (expand80Fold key n).2) := by
      rw [expand80Fold, List.range'_1_concat 1 n, List.foldl_append, List.foldl_cons,
        List.foldl_nil]
      rfl
    refine ⟨?_, ?_, ?_⟩
    · rw [hstep]
      show update80 (1 + n) (expand80Fold key n).2 = wk80After key (n + 1)
      rw [ih1, Nat.add_comm 1 n, wk80After]
    · rw [hstep]
      show ((expand80Fold key n).1.set (1 + n) (tap80 (expand80Fold key n).2)).length = 37
      rw [List.length_set]
      exact ih2
    · intro j h1 h2 h3
      rcases Nat.lt_or_ge j (n + 1) with hj | hj
      · rw [hstep]
        show ((expand80Fold key n).1.set (1 + n) (tap80 (expand80Fold key n).2)).getD j [] = _
        rw [getD_set_ne_list _ _ _ _ _ (by omega : (1 : Nat) + n ≠ j)]
        exact ih3 j h1 (by omega) h3
      · have hj' : j = n + 1 := by omega
        subst hj'
        rw [hstep]
        show ((expand80Fold key n).1.set (1 + n) (tap80 (expand80Fold key n).2)).getD (n + 1) []
          = tap80 (wk80After key (n + 1 - 1))
        rw [show (1 : Nat) + n = n + 1 from by omega]
        rw [getD_set_eq_list _ _ _ _ (by rw [ih2]; omega)]
        rw [ih1]
        simp

theorem expand80_row (key : List Nat) (i : Nat) (h1 : 1 ≤ i) (h2 : i ≤ 36) :
    (expandKeys80 key).getD i [] = tap80 (wk80After key (i - 1)) := by
  obtain ⟨hs, hlen, hrow⟩ := expand80Fold_spec key 35
  rw [expandKeys80_eq_fold]
  rcases Nat.lt_or_ge i 36 with hi | hi
  · rw [getD_set_ne_list _ _ _ _ _ (by omega)]
    exact hrow i h1 (by omega) (by omega)
  · have h36 : i = 36 := by omega
    subst h36
    rw [getD_set_eq_list _ _ _ _ (by rw [hlen]; omega), hs]


def expand128Fold (key : List Nat) (n : Nat) : List (List Nat) × List Nat :=
  (List.range' 1 n).foldl
    (fun (p : List (List Nat) × List Nat) i => (p.1.set i (tap128 p.2), update128 i p.2))
    (List.replicate 37 (List.replicate 8 0), unpackInto 32 key)

theorem expandKeys128_eq_fold (key : List Nat) :
    expandKeys128 key = (expand128Fold key 35).1.set 36 (tap128 (expand128Fold key 35).2) := rfl

theorem expand128Fold_spec (key : List Nat) :
    ∀ n, (expand128Fold key n).2 = wk128After key n ∧
      (expand128Fold key n).1.length = 37 ∧
      (∀ j, 1 ≤ j → j ≤ n → j ≤ 36 →
        (expand128Fold key n).1.getD j [] = tap128 (wk128After key (j - 1))) := by
  intro n
  induction n with
  | zero =>
    refine ⟨rfl, by simp [expand128Fold], ?_⟩
    intro j h1 h2 _
    omega
  | succ n ih =>
    obtain ⟨ih1, ih2, ih3⟩ := ih
    have hstep : expand128Fold key (n + 1) =
        ((expand128Fold key n).1.set (1 + n) (tap128 (expand128Fold key n).2),
         update128 (1 + n) (expand128Fold key n).2) := by
      rw [expand128Fold, List.range'_1_concat 1 n, List.foldl_append, List.foldl_cons,
        List.foldl_nil]
      rfl
    refine ⟨?_, ?_, ?_⟩
    · rw [hstep]
      show update128 (1 + n) (expand128Fold key n).2 = wk128After key (n + 1)
      rw [ih1, Nat.add_comm 1 n, wk128After]
    · rw [hstep]
      show ((expand128Fold key n).1.set (1 + n) (tap128 (expand128Fold key n).2)).length = 37
      rw [List.length_set]
      exact ih2
    · intro j h1 h2 h3
      rcases Nat.lt_or_ge j (n + 1) with hj | hj
      · rw [hstep]
        show ((expand128Fold key n).1.set (1 + n) (tap128 (expand128Fold key n).2)).getD j [] = _
        rw [getD_set_ne_list _ _ _ _ _ (by omega : (1 : Nat) + n ≠ j)]
        exact ih3 j h1 (by omega) h3
      · have hj28 : j = n + 1 := by omega
        subst hj28
        rw [hstep]
        show ((expand128Fold key n).1.set (1 + n)
            (tap128 (expand128Fold key n).2)).getD (n + 1) []
          = tap128 (wk128After key (n + 1 - 1))
        rw [show (1 : Nat) + n = n + 1 from by omega]
        rw [getD_set_eq_list _ _ _ _ (by rw [ih2]; omega)]
        rw [ih1]
        simp

theorem expand128_row (key : List Nat) (i : Nat) (h1 : 1 ≤ i) (h2 : i ≤ 36) :
    (expandKeys128 key).getD i [] = tap128 (wk128After key (i - 1)) := by
  obtain ⟨hs, hlen, hrow⟩ := expand128Fold_spec key 35
  rw [expandKeys128_eq_fold]
  rcases Nat.lt_or_ge i 36 with hi | hi
  · rw [getD_set_ne_list _ _ _ _ _ (by omega)]
    exact hrow i h1 (by omega) (by omega)
  · have h36 : i = 36 := by omega
    subst h36
    rw [getD_set_eq_list _ _ _ _ (by rw [hlen]; omega), hs]

/-! Helper lemmas: lengths and nibble bounds of the key-schedule state. -/

theorem length_foldl_preserve {α : Type} (l : List α) (step : List Nat → α → List Nat)
    (hstep : ∀ w a, (step w a).length = w.length) :
    ∀ w, (l.foldl step w).length = w.length := by
  induction l with
  | nil => intro w; rfl
  | cons a l ih => intro w; rw [List.foldl_cons, ih, hstep]

theorem unpackInto_length (n : Nat) (key : List Nat) : (unpackInto n key).length = n := by
  rw [unpackInto, length_foldl_preserve, List.length_replicate]
  intro w a
  rw [List.length_set, List.length_set]

theorem len20_destruct (x : List Nat) (h : x.length = 20) :
    ∃ a0 a1 a2 a3 a4 a5 a6 a7 a8 a9 a10 a11 a12 a13 a14 a15 a16 a17 a18 a19 : Nat,
      x = [a0, a1, a2, a3, a4, a5, a6, a7, a8, a9, a10, a11, a12, a13, a14, a15,
        a16, a17, a18, a19] := by
  obtain ⟨a0, x1, rfl, h1⟩ := cons_of_len x 19 h
  obtain ⟨a1, x2, rfl, h2⟩ := cons_of_len x1 18 h1
  obtain ⟨a2, x3, rfl, h3⟩ := cons_of_len x2 17 h2
  obtain ⟨a3, x4, rfl, h4⟩ := cons_of_len x3 16 h3
  obtain ⟨a4, x5, rfl, h5⟩ := cons_of_len x4 15 h4
  obtain ⟨a5, x6, rfl, h6⟩ := cons_of_len x5 14 h5
  obtain ⟨a6, x7, rfl, h7⟩ := cons_of_len x6 13 h6
  obtain ⟨a7, x8, rfl, h8⟩ := cons_of_len x7 12 h7
  obtain ⟨a8, x9, rfl, h9⟩ := cons_of_len x8 11 h8
  obtain ⟨a9, x10, rfl, h10⟩ := cons_of_len x9 10 h9
  obtain ⟨a10, x11, rfl, h11⟩ := cons_of_len x10 9 h10
  obtain ⟨a11, x12, rfl, h12⟩ := cons_of_len x11 8 h11
  obtain ⟨a12, x13, rfl, h13⟩ := cons_of_len x12 7 h12
  obtain ⟨a13, x14, rfl, h14⟩ := cons_of_len x13 6 h13
  obtain ⟨a14, x15, rfl, h15⟩ := cons_of_len x14 5 h14
  obtain ⟨a15, x16, rfl, h16⟩ := cons_of_len x15 4 h15
  obtain ⟨a16, x17, rfl, h17⟩ := cons_of_len x16 3 h16
  obtain ⟨a17, x18, rfl, h18⟩ := cons_of_len x17 2 h17
  obtain ⟨a18, x19, rfl, h19⟩ := cons_of_len x18 1 h18
  obtain ⟨a19, x20, rfl, h20⟩ := cons_of_len x19 0 h19
  obtain rfl := List.length_eq_zero.mp h20
  exact ⟨a0, a1, a2, a3, a4, a5, a6, a7, a8, a9, a10, a11, a12, a13, a14, a15,
    a16, a17, a18, a19, rfl⟩

theorem len32_destruct (x : List Nat) (h : x.length = 32) :
    ∃ a0 a1 a2 a3 a4 a5 a6 a7 a8 a9 a10 a11 a12 a13 a14 a15 a16 a17 a18 a19
      a20 a21 a22 a23 a24 a25 a26 a27 a28 a29 a30 a31 : Nat,
      x = [a0, a1, a2, a3, a4, a5, a6, a7, a8, a9, a10, a11, a12, a13, a14, a15,
        a16, a17, a18, a19, a20, a21, a22, a23, a24, a25, a26, a27, a28, a29, a30, a31] := by
  obtain ⟨a0, x1, rfl, h1⟩ := cons_of_len x 31 h
  obtain ⟨a1, x2, rfl, h2⟩ := cons_of_len x1 30 h1
  obtain ⟨a2, x3, rfl, h3⟩ := cons_of_len x2 29 h2
  obtain ⟨a3, x4, rfl, h4⟩ := cons_of_len x3 28 h3
  obtain ⟨a4, x5, rfl, h5⟩ := cons_of_len x4 27 h4
  obtain ⟨a5, x6, rfl, h6⟩ := cons_of_len x5 26 h5
  obtain ⟨a6, x7, rfl, h7⟩ := cons_of_len x6 25 h6
  obtain ⟨a7, x8, rfl, h8⟩ := cons_of_len x7 24 h7
  obtain ⟨a8, x9, rfl, h9⟩ := cons_of_len x8 23 h8
  obtain ⟨a9, x10, rfl, h10⟩ := cons_of_len x9 22 h9
  obtain ⟨a10, x11, rfl, h11⟩ := cons_of_len x10 21 h10
  obtain ⟨a11, x12, rfl, h12⟩ := cons_of_len x11 20 h11
  obtain ⟨a12, x13, rfl, h13⟩ := cons_of_len x12 19 h12
  obtain ⟨a13, x14, rfl, h14⟩ := cons_of_len x13 18 h13
  obtain ⟨a14, x15, rfl, h15⟩ := cons_of_len x14 17 h14
  obtain ⟨a15, x16, rfl, h16⟩ := cons_of_len x15 16 h15
  obtain ⟨a16, x17, rfl, h17⟩ := cons_of_len x16 15 h16
  obtain ⟨a17, x18, rfl, h18⟩ := cons_of_len x17 14 h17
  obtain ⟨a18, x19, rfl, h19⟩ := cons_of_len x18 13 h18
  obtain ⟨a19, x20, rfl, h20⟩ := cons_of_len x19 12 h19
  obtain ⟨a20, x21, rfl, h21⟩ := cons_of_len x20 11 h20
  obtain ⟨a21, x22, rfl, h22⟩ := cons_of_len x21 10 h21
  obtain ⟨a22, x23, rfl, h23⟩ := cons_of_len x22 9 h22
  obtain ⟨a23, x24, rfl, h24⟩ := cons_of_len x23 8 h23
  obtain ⟨a24, x25, rfl, h25⟩ := cons_of_len x24 7 h24
  obtain ⟨a25, x26, rfl, h26⟩ := cons_of_len x25 6 h25
  obtain ⟨a26, x27, rfl, h27⟩ := cons_of_len x26 5 h26
  obtain ⟨a27, x28, rfl, h28⟩ := cons_of_len x27 4 h27
  obtain ⟨a28, x29, rfl, h29⟩ := cons_of_len x28 3 h28
  obtain ⟨a29, x30, rfl, h30⟩ := cons_of_len x29 2 h29
  obtain ⟨a30, x31, rfl, h31⟩ := cons_of_len x30 1 h30
  obtain ⟨a31, x32, rfl, h32⟩ := cons_of_len x31 0 h31
  obtain rfl := List.length_eq_zero.mp h32
  exact ⟨a0, a1, a2, a3, a4, a5, a6, a7, a8, a9, a10, a11, a12, a13, a14, a15,
    a16, a17, a18, a19, a20, a21, a22, a23, a24, a25, a26, a27, a28, a29, a30, a31, rfl⟩

theorem wk80After_length (key : List Nat) : ∀ n, (wk80After key n).length = 20 := by
  intro n
  induction n with
  | zero => exact unpackInto_length 20 key
  | succ n ih =>
    obtain ⟨a0, a1, a2, a3, a4, a5, a6, a7, a8, a9, a10, a11, a12, a13, a14, a15,
      a16, a17, a18, a19, heq⟩ := len20_destruct _ ih
    rw [wk80After, heq, update80_eval]
    rfl

theorem wk128After_length (key : List Nat) : ∀ n, (wk128After key n).length = 32 := by
  intro n
  induction n with
  | zero => exact unpackInto_length 32 key
  | succ n ih =>
    obtain ⟨a0, a1, a2, a3, a4, a5, a6, a7, a8, a9, a10, a11, a12, a13, a14, a15,
      a16, a17, a18, a19, a20, a21, a22, a23, a24, a25, a26, a27, a28, a29, a30, a31, heq⟩ :=
      len32_destruct _ ih
    rw [wk128After, heq, update128_eval]
    rfl

theorem roundconst_getD_lt (i : Nat) : roundconst.getD i 0 < 64 :=
  getD_lt_bound _ _ (by decide) (by norm_num) i

theorem rcon_hi_lt (i : Nat) : roundconst.getD i 0 >>> 3 < 16 := by
  have h := roundconst_getD_lt i
  rw [Nat.shiftRight_eq_div_pow, show (2 : Nat) ^ 3 = 8 from by norm_num]
  omega

theorem rcon_lo_lt (i : Nat) : roundconst.getD i 0 &&& 7 < 16 :=
  Nat.lt_of_le_of_lt Nat.and_le_right (by norm_num)

theorem unpackInto_bound (n : Nat) (key : List Nat) (hb : ∀ b ∈ key, b < 256) :
    ∀ v ∈ unpackInto n key, v < 16 := by
  rw [unpackInto]
  have key2 : ∀ (l : List Nat) (w : List Nat), (∀ v ∈ w, v < 16) →
      ∀ v ∈ l.foldl (fun wk i =>
        (wk.set (2 * i) ((key.getD i 0) >>> 4)).set (2 * i + 1) ((key.getD i 0) &&& 0x0f)) w,
        v < 16 := by
    intro l
    induction l with
    | nil => intro w hw; exact hw
    | cons a l ih =>
      intro w hw
      rw [List.foldl_cons]
      refine ih _ (set_forall_lt (set_forall_lt hw ?_ _) (and15_lt _) _)
      exact shiftR4_lt _ (getD_lt_bound _ _ hb (by norm_num) _)
  refine key2 _ _ ?_
  intro v hv
  rw [List.eq_of_mem_replicate hv]
  norm_num

theorem update80_bound (i : Nat) (wk : List Nat) (hl : wk.length = 20)
    (h : ∀ v ∈ wk, v < 16) : ∀ v ∈ update80 i wk, v < 16 := by
  obtain ⟨a0, a1, a2, a3, a4, a5, a6, a7, a8, a9, a10, a11, a12, a13, a14, a15,
    a16, a17, a18, a19, rfl⟩ := len20_destruct _ hl
  simp only [List.forall_mem_cons, List.forall_mem_nil] at h
  obtain ⟨h0, h1, h2, h3, h4, h5, h6, h7, h8, h9, h10, h11, h12, h13, h14, h15,
    h16, h17, h18, h19, -⟩ := h
  rw [update80_eval]
  simp only [List.forall_mem_cons, List.forall_mem_nil]
  exact ⟨xor_lt_16 h4 (sbox_getD_lt _), h5, h6, xor_lt_16 h7 (rcon_hi_lt i), h8, h9, h10, h11,
    h12, h13, h14, h15, h16, h17, h18, xor_lt_16 h19 (rcon_lo_lt i),
    xor_lt_16 h1 (sbox_getD_lt _), h2, h3, h0, by simp⟩

theorem update128_bound (i : Nat) (wk : List Nat) (hl : wk.length = 32)
    (h : ∀ v ∈ wk, v < 16) : ∀ v ∈ update128 i wk, v < 16 := by
  obtain ⟨a0, a1, a2, a3, a4, a5, a6, a7, a8, a9, a10, a11, a12, a13, a14, a15,
    a16, a17, a18, a19, a20, a21, a22, a23, a24, a25, a26, a27, a28, a29, a30, a31, rfl⟩ :=
    len32_destruct _ hl
  simp only [List.forall_mem_cons, List.forall_mem_nil] at h
  obtain ⟨h0, h1, h2, h3, h4, h5, h6, h7, h8, h9, h10, h11, h12, h13, h14, h15,
    h16, h17, h18, h19, h20, h21, h22, h23, h24, h25, h26, h27, h28, h29, h30, h31, -⟩ := h
  rw [update128_eval]
  simp only [List.forall_mem_cons, List.forall_mem_nil]
  exact ⟨xor_lt_16 h4 (sbox_getD_lt _), h5, h6, xor_lt_16 h7 (rcon_hi_lt i), h8, h9, h10, h11,
    h12, h13, h14, h15, h16, h17, h18, xor_lt_16 h19 (rcon_lo_lt i),
    h20, h21, h22, xor_lt_16 h23 (sbox_getD_lt _), h24, h25, h26, h27, h28, h29, h30, h31,
    xor_lt_16 h1 (sbox_getD_lt _), h2, h3, h0, by simp⟩

theorem wk80After_bound (key : List Nat) (hb : ∀ b ∈ key, b < 256) :
    ∀ n, ∀ v ∈ wk80After key n, v < 16 := by
  intro n
  induction n with
  | zero => exact unpackInto_bound 20 key hb
  | succ n ih =>
    rw [wk80After]
    exact update80_bound _ _ (wk80After_length key n) ih

theorem wk128After_bound (key : List Nat) (hb : ∀ b ∈ key, b < 256) :
    ∀ n, ∀ v ∈ wk128After key n, v < 16 := by
  intro n
  induction n with
  | zero => exact unpackInto_bound 32 key hb
  | succ n ih =>
    rw [wk128After]
    exact update128_bound _ _ (wk128After_length key n) ih

theorem tap80_bound (wk : List Nat) (h : ∀ v ∈ wk, v < 16) : ∀ v ∈ tap80 wk, v < 16 := by
  simp only [tap80, List.forall_mem_cons, List.forall_mem_nil]
  refine ⟨?_, ?_, ?_, ?_, ?_, ?_, ?_, ?_, by simp⟩ <;>
    exact getD_lt_bound _ _ h (by norm_num) _

theorem tap128_bound (wk : List Nat) (h : ∀ v ∈ wk, v < 16) : ∀ v ∈ tap128 wk, v < 16 := by
  simp only [tap128, List.forall_mem_cons, List.forall_mem_nil]
  refine ⟨?_, ?_, ?_, ?_, ?_, ?_, ?_, ?_, by simp⟩ <;>
    exact getD_lt_bound _ _ h (by norm_num) _

/-! Helper lemmas: the source encryption agrees with the specification-worded
`encryptSpec` on 8-byte sources. -/

theorem unpackSpec_eval (b0 b1 b2 b3 b4 b5 b6 b7 : Nat) :
    unpackSpec [b0, b1, b2, b3, b4, b5, b6, b7] =
      [b0 / 16, b0 % 16, b1 / 16, b1 % 16, b2 / 16, b2 % 16, b3 / 16, b3 % 16,
       b4 / 16, b4 % 16, b5 / 16, b5 % 16, b6 / 16, b6 % 16, b7 / 16, b7 % 16] := by
  simp [unpackSpec, List.range_succ]

theorem feistelSpec_eval (rk : List Nat)
    (a0 a1 a2 a3 a4 a5 a6 a7 a8 a9 a10 a11 a12 a13 a14 a15 : Nat) :
    feistelSpec rk [a0, a1, a2, a3, a4, a5, a6, a7, a8, a9, a10, a11, a12, a13, a14, a15] =
      [a0, a1 ^^^ sbox.getD (a0 ^^^ rk.getD 0 0) 0,
       a2, a3 ^^^ sbox.getD (a2 ^^^ rk.getD 1 0) 0,
       a4, a5 ^^^ sbox.getD (a4 ^^^ rk.getD 2 0) 0,
       a6, a7 ^^^ sbox.getD (a6 ^^^ rk.getD 3 0) 0,
       a8, a9 ^^^ sbox.getD (a8 ^^^ rk.getD 4 0) 0,
       a10, a11 ^^^ sbox.getD (a10 ^^^ rk.getD 5 0) 0,
       a12, a13 ^^^ sbox.getD (a12 ^^^ rk.getD 6 0) 0,
       a14, a15 ^^^ sbox.getD (a14 ^^^ rk.getD 7 0) 0] := by
  simp [feistelSpec, List.range_succ]

attribute [irreducible] unpackSpec feistelSpec encryptSpec

theorem feistelSpec_eq_feistel (rk x : List Nat) (h : x.length = 16) :
    feistelSpec rk x = feistel rk x := by
  obtain ⟨a0, a1, a2, a3, a4, a5, a6, a7, a8, a9, a10, a11, a12, a13, a14, a15, rfl⟩ :=
    len16_destruct x h
  rw [feistelSpec_eval, feistel_eval]

theorem fold_roundSpec_congr (rk : Nat → List Nat) (l : List Nat) :
    ∀ x : List Nat, x.length = 16 →
      l.foldl (fun x i => permute shuf (feistelSpec (rk i) x)) x =
        l.foldl (fun x i => permute shuf (feistel (rk i) x)) x := by
  induction l with
  | nil => intro x _; rw [List.foldl_nil, List.foldl_nil]
  | cons a l ih =>
    intro x hx
    rw [List.foldl_cons, List.foldl_cons, feistelSpec_eq_feistel _ _ hx]
    exact ih _ (permute_length _ _)

theorem packSpec_eq_pack (x : List Nat) (h : x.length = 16) (hlt : ∀ v ∈ x, v < 16) :
    (List.range 8).map (fun k => (x.getD (2 * k) 0) * 16 + (x.getD (2 * k + 1) 0)) = pack x := by
  obtain ⟨a0, a1, a2, a3, a4, a5, a6, a7, a8, a9, a10, a11, a12, a13, a14, a15, rfl⟩ :=
    len16_destruct x h
  simp only [List.forall_mem_cons, List.forall_mem_nil] at hlt
  obtain ⟨h0, h1, h2, h3, h4, h5, h6, h7, h8, h9, h10, h11, h12, h13, h14, h15, -⟩ := hlt
  rw [pack_eval]
  rw [shiftL4_or_eq _ _ h1, shiftL4_or_eq _ _ h3, shiftL4_or_eq _ _ h5, shiftL4_or_eq _ _ h7,
    shiftL4_or_eq _ _ h9, shiftL4_or_eq _ _ h11, shiftL4_or_eq _ _ h13, shiftL4_or_eq _ _ h15]
  simp [List.range_succ]
  omega

theorem encryptSpec_eq (c : twineCipher) (src : List Nat) (hsrc : src.length = 8)
    (hb : ∀ b ∈ src, b < 256) : Encrypt c src = some (encryptSpec c.rk src) := by
  obtain ⟨b0, b1, b2, b3, b4, b5, b6, b7, rfl⟩ := len8_destruct src hsrc
  simp only [List.forall_mem_cons, List.forall_mem_nil] at hb
  obtain ⟨g0, g1, g2, g3, g4, g5, g6, g7, -⟩ := hb
  have hzip : ∀ b : Nat, b >>> 4 = b / 16 ∧ b &&& 0x0f = b % 16 := fun b =>
    ⟨shiftR4_eq_div b, and15_eq_mod b⟩
  have hx0 : ∀ v ∈ [b0 >>> 4, b0 &&& 0x0f, b1 >>> 4, b1 &&& 0x0f, b2 >>> 4, b2 &&& 0x0f,
      b3 >>> 4, b3 &&& 0x0f, b4 >>> 4, b4 &&& 0x0f, b5 >>> 4, b5 &&& 0x0f,
      b6 >>> 4, b6 &&& 0x0f, b7 >>> 4, b7 &&& 0x0f], v < 16 := by
    simp only [List.forall_mem_cons, List.forall_mem_nil]
    exact ⟨shiftR4_lt _ g0, and15_lt _, shiftR4_lt _ g1, and15_lt _, shiftR4_lt _ g2, and15_lt _,
      shiftR4_lt _ g3, and15_lt _, shiftR4_lt _ g4, and15_lt _, shiftR4_lt _ g5, and15_lt _,
      shiftR4_lt _ g6, and15_lt _, shiftR4_lt _ g7, and15_lt _, by simp⟩
  rw [Encrypt, unpack8_eval, Option.map_some']
  rw [encryptSpec, unpackSpec_eval]
  rw [show [b0 / 16, b0 % 16, b1 / 16, b1 % 16, b2 / 16, b2 % 16, b3 / 16, b3 % 16,
      b4 / 16, b4 % 16, b5 / 16, b5 % 16, b6 / 16, b6 % 16, b7 / 16, b7 % 16] =
    [b0 >>> 4, b0 &&& 0x0f, b1 >>> 4, b1 &&& 0x0f, b2 >>> 4, b2 &&& 0x0f, b3 >>> 4, b3 &&& 0x0f,
     b4 >>> 4, b4 &&& 0x0f, b5 >>> 4, b5 &&& 0x0f, b6 >>> 4, b6 &&& 0x0f, b7 >>> 4, b7 &&& 0x0f]
    from by simp [shiftR4_eq_div, and15_eq_mod]]
  rw [fold_roundSpec_congr (fun i => twineCipher.rk c |>.getD i []) (List.range' 1 35)
    [b0 >>> 4, b0 &&& 0x0f, b1 >>> 4, b1 &&& 0x0f, b2 >>> 4, b2 &&& 0x0f, b3 >>> 4, b3 &&& 0x0f,
     b4 >>> 4, b4 &&& 0x0f, b5 >>> 4, b5 &&& 0x0f, b6 >>> 4, b6 &&& 0x0f, b7 >>> 4, b7 &&& 0x0f]
    rfl]
  have hlen : ((List.range' 1 35).foldl
      (fun x i => permute shuf (feistel (twineCipher.rk c |>.getD i []) x))
      [b0 >>> 4, b0 &&& 0x0f, b1 >>> 4, b1 &&& 0x0f, b2 >>> 4, b2 &&& 0x0f, b3 >>> 4,
       b3 &&& 0x0f, b4 >>> 4, b4 &&& 0x0f, b5 >>> 4, b5 &&& 0x0f, b6 >>> 4, b6 &&& 0x0f,
       b7 >>> 4, b7 &&& 0x0f]).length = 16 :=
    fold_round_length shuf (fun i => twineCipher.rk c |>.getD i []) _ _ rfl
  have hbnd := fold_round_bound shuf (fun i => twineCipher.rk c |>.getD i [])
    (List.range' 1 35) _ hx0
  rw [feistelSpec_eq_feistel _ _ hlen]
  rw [packSpec_eq_pack _ (by rw [feistel_length]; exact hlen) (feistel_bound _ _ hbnd)]

/-! Helper lemmas: sources shorter than 8 bytes unpack as if zero-padded. -/

theorem getD_replicate_zero (n k : Nat) : (List.replicate n (0 : Nat)).getD k 0 = 0 := by
  rw [List.getD_eq_getElem?_getD, List.getElem?_replicate]
  split <;> rfl

theorem pack_length (x : List Nat) : (pack x).length = 8 := by
  simp [pack]

theorem unpackLoop_append (t : List Nat) : ∀ (s : List Nat) (x : List Nat) (i : Nat),
    unpackLoop x i (s ++ t) =
      (unpackLoop x i s).bind (fun y => unpackLoop y (i + s.length) t) := by
  intro s
  induction s with
  | nil => intro x i; simp [unpackLoop]
  | cons b s ih =>
    intro x i
    rw [List.cons_append, unpackLoop, unpackLoop]
    by_cases h : 2 * i < 16
    · rw [if_pos h, if_pos h, ih]
      rw [show i + 1 + s.length = i + (b :: s).length from by simp; omega]
    · rw [if_neg h, if_neg h, Option.none_bind]

theorem set_getD_self : ∀ (l : List Nat) (n : Nat), n < l.length →
    l.set n (l.getD n 0) = l := by
  intro l
  induction l with
  | nil => intro n h; simp at h
  | cons a t ih =>
    intro n h
    cases n with
    | zero => rfl
    | succ n =>
      simp only [List.set_cons_succ, List.getD_cons_succ]
      rw [ih n (by simpa using h)]

theorem unpackLoop_zeros : ∀ (m : Nat) (x : List Nat) (i : Nat), 2 * (i + m) ≤ 16 →
    x.length = 16 → (∀ k, 2 * i ≤ k → x.getD k 0 = 0) →
    unpackLoop x i (List.replicate m 0) = some x := by
  intro m
  induction m with
  | zero => intro x i _ _ _; rfl
  | succ m ih =>
    intro x i hm hx hz
    rw [List.replicate_succ, unpackLoop, if_pos (by omega)]
    have e1 : x.set (2 * i) ((0 : Nat) >>> 4) = x := by
      have h0 := set_getD_self x (2 * i) (by omega)
      rwa [hz (2 * i) (by omega)] at h0
    rw [e1]
    have e2 : x.set (2 * i + 1) ((0 : Nat) &&& 0x0f) = x := by
      have h0 := set_getD_self x (2 * i + 1) (by omega)
      rwa [hz (2 * i + 1) (by omega)] at h0
    rw [e2]
    exact ih x (i + 1) (by omega) hx (fun k hk => hz k (by omega))

theorem unpackLoop_short : ∀ (src : List Nat) (x : List Nat) (i : Nat), x.length = 16 →
    i + src.length ≤ 8 →
    ∃ y, unpackLoop x i src = some y ∧ y.length = 16 ∧
      ∀ k, 2 * (i + src.length) ≤ k → y.getD k 0 = x.getD k 0 := by
  intro src
  induction src with
  | nil => intro x i hx _; exact ⟨x, rfl, hx, fun k _ => rfl⟩
  | cons b s ih =>
    intro x i hx hlen
    rw [unpackLoop, if_pos (by simp at hlen; omega)]
    obtain ⟨y, hy, hylen, hyk⟩ := ih ((x.set (2 * i) (b >>> 4)).set (2 * i + 1) (b &&& 0x0f))
      (i + 1) (by rw [List.length_set, List.length_set]; exact hx)
      (by simp at hlen ⊢; omega)
    refine ⟨y, hy, hylen, ?_⟩
    intro k hk
    have hk' : 2 * (i + 1 + s.length) ≤ k := by simp at hk ⊢; omega
    rw [hyk k hk']
    rw [getD_set_ne_list _ _ _ _ _ (by simp at hk; omega)]
    rw [getD_set_ne_list _ _ _ _ _ (by simp at hk; omega)]

theorem unpack_pad (src : List Nat) (h : src.length < 8) :
    (∃ y, unpackLoop (List.replicate 16 0) 0 src = some y ∧
      unpackLoop (List.replicate 16 0) 0 (src ++ List.replicate (8 - src.length) 0) = some y) := by
  obtain ⟨y, hy, hylen, hyk⟩ := unpackLoop_short src (List.replicate 16 0) 0 (by simp) (by omega)
  refine ⟨y, hy, ?_⟩
  rw [unpackLoop_append, hy, Option.some_bind]
  rw [show (0 : Nat) + src.length = src.length from by omega]
  refine unpackLoop_zeros _ _ _ (by omega) hylen ?_
  intro k hk
  rw [hyk k (by omega), getD_replicate_zero]

theorem transform_short (c : twineCipher) (src : List Nat) (h : src.length < 8) :
    (∃ out, Encrypt c src = some out ∧ out.length = 8 ∧
      Encrypt c (src ++ List.replicate (8 - src.length) 0) = some out) ∧
    (∃ out, Decrypt c src = some out ∧ out.length = 8 ∧
      Decrypt c (src ++ List.replicate (8 - src.length) 0) = some out) := by
  obtain ⟨y, hy, hypad⟩ := unpack_pad src h
  constructor
  · refine ⟨pack (feistel (twineCipher.rk c |>.getD 36 [])
        ((List.range' 1 35).foldl
          (fun x i => permute shuf (feistel (twineCipher.rk c |>.getD i []) x)) y)),
      ?_, pack_length _, ?_⟩
    · rw [Encrypt, hy, Option.map_some']
    · rw [Encrypt, hypad, Option.map_some']
  · refine ⟨pack (feistel (twineCipher.rk c |>.getD 1 [])
        (((List.range' 2 35).reverse).foldl
          (fun x i => permute shufinv (feistel (twineCipher.rk c |>.getD i []) x)) y)),
      ?_, pack_length _, ?_⟩
    · rw [Decrypt, hy, Option.map_some']
    · rw [Decrypt, hypad, Option.map_some']


/-! Claim theorems. -/

/-- C1: encrypting plaintext 01 23 45 67 89 AB CD EF under the 10-byte
key 00 11 22 33 44 55 66 77 88 99 yields 7C 1F 0F 80 B1 DF 9C 28, and
under the 16-byte key 00 11 ... EE FF yields 97 9F F9 B3 79 B5 A9 B8. -/
theorem c1_known_answer_vectors :
    (New [0x00, 0x11, 0x22, 0x33, 0x44, 0x55, 0x66, 0x77, 0x88, 0x99]).map
        (fun c => Encrypt c [0x01, 0x23, 0x45, 0x67, 0x89, 0xAB, 0xCD, 0xEF]) =
      Except.ok (some [0x7C, 0x1F, 0x0F, 0x80, 0xB1, 0xDF, 0x9C, 0x28]) ∧
    (New [0x00, 0x11, 0x22, 0x33, 0x44, 0x55, 0x66, 0x77, 0x88, 0x99,
          0xAA, 0xBB, 0xCC, 0xDD, 0xEE, 0xFF]).map
        (fun c => Encrypt c [0x01, 0x23, 0x45, 0x67, 0x89, 0xAB, 0xCD, 0xEF]) =
      Except.ok (some [0x97, 0x9F, 0xF9, 0xB3, 0x79, 0xB5, 0xA9, 0xB8]) :=
  ⟨vector80_compute, vector128_compute⟩

/-- C2: for every valid key (length 10 or 16) and every 8-byte block,
decryption inverts encryption and encryption inverts decryption on the
instance built from that key. -/
theorem c2_roundtrip (key P : List Nat)
    (hk : key.length = 10 ∨ key.length = 16) (hP : P.length = 8) (hb : ∀ b ∈ P, b < 256) :
    ∃ c, New key = Except.ok c ∧ (Encrypt c P).bind (Decrypt c) = some P ∧
      (Decrypt c P).bind (Encrypt c) = some P := by
  rcases hk with hk | hk
  · exact ⟨⟨expandKeys80 key⟩, by simp [New, hk],
      encrypt_then_decrypt _ _ hP hb, decrypt_then_encrypt _ _ hP hb⟩
  · exact ⟨⟨expandKeys128 key⟩, by simp [New, hk],
      encrypt_then_decrypt _ _ hP hb, decrypt_then_encrypt _ _ hP hb⟩

theorem c2_roundtrip_witness :
    ∃ c, New (List.replicate 10 0) = Except.ok c ∧
      (Encrypt c [1, 2, 3, 4, 5, 6, 7, 8]).bind (Decrypt c) = some [1, 2, 3, 4, 5, 6, 7, 8] ∧
      (Decrypt c [1, 2, 3, 4, 5, 6, 7, 8]).bind (Encrypt c) = some [1, 2, 3, 4, 5, 6, 7, 8] :=
  c2_roundtrip (List.replicate 10 0) [1, 2, 3, 4, 5, 6, 7, 8]
    (Or.inl (by simp)) (by simp) (by decide)

/-- C3: `New` fails with the invalid-key-size error exactly on lengths
other than 10 and 16; the error carries the length and its message embeds
it in decimal; valid lengths yield an instance. -/
theorem c3_key_size_error (key : List Nat) :
    (key.length ≠ 10 ∧ key.length ≠ 16 →
      New key = Except.error key.length ∧
      KeySizeError.Error key.length = "twine: invalid key size " ++ Nat.repr key.length) ∧
    ((key.length = 10 ∨ key.length = 16) → ∃ c, New key = Except.ok c) := by
  constructor
  · intro h
    exact ⟨by simp [New, h.1, h.2], rfl⟩
  · intro h
    rcases h with h | h
    · exact ⟨⟨expandKeys80 key⟩, by simp [New, h]⟩
    · exact ⟨⟨expandKeys128 key⟩, by simp [New, h]⟩

theorem c3_key_size_error_witness :
    (New (List.replicate 9 0) = Except.error 9 ∧
      KeySizeError.Error 9 = "twine: invalid key size " ++ Nat.repr 9) ∧
    (∃ c, New (List.replicate 10 0) = Except.ok c) :=
  ⟨by simpa using (c3_key_size_error (List.replicate 9 0)).1 (by simp),
   (c3_key_size_error (List.replicate 10 0)).2 (Or.inl (by simp))⟩

/-- C4: on every valid instance and 8-byte source, `Encrypt` computes
exactly the specification's algorithm: unpack into 16 nibbles, rounds
1..35 of Feistel step `X[2j+1] ^= S[X[2j] ^ RK[i][j]]` followed by the
shuffle `Y[shuf[h]] = X[h]`, a Feistel-only round 36, and repacking. -/
theorem c4_encrypt_structure (key src : List Nat) (c : twineCipher)
    (_hk : key.length = 10 ∨ key.length = 16) (_hc : New key = Except.ok c)
    (hsrc : src.length = 8) (hb : ∀ b ∈ src, b < 256) :
    Encrypt c src = some (encryptSpec c.rk src) :=
  encryptSpec_eq c src hsrc hb

theorem c4_encrypt_structure_witness :
    Encrypt ⟨expandKeys80 (List.replicate 10 0)⟩ [1, 2, 3, 4, 5, 6, 7, 8] =
      some (encryptSpec (twineCipher.rk ⟨expandKeys80 (List.replicate 10 0)⟩)
        [1, 2, 3, 4, 5, 6, 7, 8]) :=
  c4_encrypt_structure (List.replicate 10 0) [1, 2, 3, 4, 5, 6, 7, 8]
    ⟨expandKeys80 (List.replicate 10 0)⟩ (Or.inl (by simp)) (by simp [New]) (by simp) (by decide)

/-- C5: the 80-bit key schedule taps round key `i` from working-key
positions (1, 3, 4, 6, 13, 14, 15, 16) of the state after `i - 1`
updates (with `RK[36]` tapped after the loop), the initial state is the
key unpacked into 20 nibbles, and each update performs the non-linear
mix, the round-constant injection, and the twisted left rotation with
`WK[16..19] = t1, t2, t3, t0`. -/
theorem c5_key_schedule_80 :
    (∀ (key : List Nat) (i : Nat), 1 ≤ i → i ≤ 36 →
      (expandKeys80 key).getD i [] =
        [(wk80After key (i - 1)).getD 1 0, (wk80After key (i - 1)).getD 3 0,
         (wk80After key (i - 1)).getD 4 0, (wk80After key (i - 1)).getD 6 0,
         (wk80After key (i - 1)).getD 13 0, (wk80After key (i - 1)).getD 14 0,
         (wk80After key (i - 1)).getD 15 0, (wk80After key (i - 1)).getD 16 0]) ∧
    (∀ k0 k1 k2 k3 k4 k5 k6 k7 k8 k9 : Nat,
      wk80After [k0, k1, k2, k3, k4, k5, k6, k7, k8, k9] 0 =
        [k0 >>> 4, k0 &&& 0x0f, k1 >>> 4, k1 &&& 0x0f, k2 >>> 4, k2 &&& 0x0f,
         k3 >>> 4, k3 &&& 0x0f, k4 >>> 4, k4 &&& 0x0f, k5 >>> 4, k5 &&& 0x0f,
         k6 >>> 4, k6 &&& 0x0f, k7 >>> 4, k7 &&& 0x0f, k8 >>> 4, k8 &&& 0x0f,
         k9 >>> 4, k9 &&& 0x0f]) ∧
    (∀ (key : List Nat) (n : Nat), wk80After key (n + 1) = update80 (n + 1) (wk80After key n)) ∧
    (∀ (i : Nat) (a0 a1 a2 a3 a4 a5 a6 a7 a8 a9 a10 a11 a12 a13 a14 a15 a16 a17 a18 a19 : Nat),
      update80 i [a0, a1, a2, a3, a4, a5, a6, a7, a8, a9, a10, a11, a12, a13, a14, a15,
        a16, a17, a18, a19] =
        [a4 ^^^ sbox.getD a16 0, a5, a6, a7 ^^^ (roundconst.getD i 0 >>> 3),
         a8, a9, a10, a11, a12, a13, a14, a15, a16, a17, a18,
         a19 ^^^ (roundconst.getD i 0 &&& 7),
         a1 ^^^ sbox.getD a0 0, a2, a3, a0]) := by
  refine ⟨?_, ?_, ?_, ?_⟩
  · intro key i h1 h2
    rw [expand80_row key i h1 h2]
    rfl
  · intro k0 k1 k2 k3 k4 k5 k6 k7 k8 k9
    rw [show wk80After [k0, k1, k2, k3, k4, k5, k6, k7, k8, k9] 0 =
      unpackInto 20 [k0, k1, k2, k3, k4, k5, k6, k7, k8, k9] from rfl]
    exact unpack10_eval k0 k1 k2 k3 k4 k5 k6 k7 k8 k9
  · intro key n
    rw [wk80After]
  · intro i a0 a1 a2 a3 a4 a5 a6 a7 a8 a9 a10 a11 a12 a13 a14 a15 a16 a17 a18 a19
    exact update80_eval i a0 a1 a2 a3 a4 a5 a6 a7 a8 a9 a10 a11 a12 a13 a14 a15 a16 a17 a18 a19

theorem c5_key_schedule_80_witness :
    (expandKeys80 (List.replicate 10 0)).getD 1 [] =
      [(wk80After (List.replicate 10 0) 0).getD 1 0, (wk80After (List.replicate 10 0) 0).getD 3 0,
       (wk80After (List.replicate 10 0) 0).getD 4 0, (wk80After (List.replicate 10 0) 0).getD 6 0,
       (wk80After (List.replicate 10 0) 0).getD 13 0,
       (wk80After (List.replicate 10 0) 0).getD 14 0,
       (wk80After (List.replicate 10 0) 0).getD 15 0,
       (wk80After (List.replicate 10 0) 0).getD 16 0] :=
  c5_key_schedule_80.1 (List.replicate 10 0) 1 (by norm_num) (by norm_num)

/-- C6: contrary to the specification's truncation contract, a source
longer than 8 bytes does not have only its first 8 bytes processed: the
unpack loop runs over the whole source and indexes past the 16-entry
nibble array, a runtime panic (modelled as `none`). -/
theorem c6_overlong_panics :
    ∃ c, New (List.replicate 10 0) = Except.ok c ∧
      Encrypt c (List.replicate 9 0) = none ∧ Decrypt c (List.replicate 9 0) = none :=
  ⟨⟨expandKeys80 (List.replicate 10 0)⟩, by simp [New], rfl, rfl⟩

/-- C7: the S-box is a permutation of 0..15, and the two shuffle tables
are mutually inverse permutations of the positions 0..15. -/
theorem c7_table_structure :
    sbox.Perm (List.range 16) ∧
    (∀ h : Fin 16, shufinv.getD (shuf.getD h.1 0) 0 = h.1 ∧
      shuf.getD (shufinv.getD h.1 0) 0 = h.1) := by
  decide

/-- C8: on every valid instance, every round-key nibble `rk[i][j]` for
rounds 1..36 is below 16, and every nibble of the working register stays
below 16 throughout both key expansions. -/
theorem c8_nibble_invariant (key : List Nat) (c : twineCipher)
    (hb : ∀ b ∈ key, b < 256) (hk : key.length = 10 ∨ key.length = 16)
    (hc : New key = Except.ok c) :
    (∀ i j, 1 ≤ i → i ≤ 36 → j < 8 → ((c.rk.getD i []).getD j 0) < 16) ∧
    (key.length = 10 → ∀ n, ∀ v ∈ wk80After key n, v < 16) ∧
    (key.length = 16 → ∀ n, ∀ v ∈ wk128After key n, v < 16) := by
  refine ⟨?_, fun _ n => wk80After_bound key hb n, fun _ n => wk128After_bound key hb n⟩
  intro i j h1 h2 _
  obtain ⟨rk⟩ := c
  rcases hk with hk | hk
  · simp only [New, hk] at hc
    norm_num [twineCipher.mk.injEq] at hc
    rw [show (twineCipher.mk rk).rk = rk from rfl, ← hc, expand80_row key i h1 h2]
    exact getD_lt_bound _ _ (tap80_bound _ (wk80After_bound key hb _)) (by norm_num) j
  · simp only [New, hk] at hc
    norm_num [twineCipher.mk.injEq] at hc
    rw [show (twineCipher.mk rk).rk = rk from rfl, ← hc, expand128_row key i h1 h2]
    exact getD_lt_bound _ _ (tap128_bound _ (wk128After_bound key hb _)) (by norm_num) j

theorem c8_nibble_invariant_witness :
    (∀ i j, 1 ≤ i → i ≤ 36 → j < 8 →
      (((twineCipher.mk (expandKeys80 (List.replicate 10 0))).rk.getD i []).getD j 0) < 16) ∧
    ((List.replicate 10 (0 : Nat)).length = 10 →
      ∀ n, ∀ v ∈ wk80After (List.replicate 10 0) n, v < 16) ∧
    ((List.replicate 10 (0 : Nat)).length = 16 →
      ∀ n, ∀ v ∈ wk128After (List.replicate 10 0) n, v < 16) :=
  c8_nibble_invariant (List.replicate 10 0) ⟨expandKeys80 (List.replicate 10 0)⟩
    (by simp) (Or.inl (by simp)) (by simp [New])

/-- C9: the transforms are deterministic pure functions of key and input:
instances built from equal keys encrypt and decrypt identically. -/
theorem c9_deterministic (k1 k2 src : List Nat) (c1 c2 : twineCipher)
    (hk : k1 = k2) (h1 : New k1 = Except.ok c1) (h2 : New k2 = Except.ok c2) :
    Encrypt c1 src = Encrypt c2 src ∧ Decrypt c1 src = Decrypt c2 src := by
  subst hk
  rw [h1] at h2
  injection h2 with h
  subst h
  exact ⟨rfl, rfl⟩

theorem c9_deterministic_witness :
    Encrypt ⟨expandKeys80 (List.replicate 10 0)⟩ [1, 2, 3] =
        Encrypt ⟨expandKeys80 (List.replicate 10 0)⟩ [1, 2, 3] ∧
      Decrypt ⟨expandKeys80 (List.replicate 10 0)⟩ [1, 2, 3] =
        Decrypt ⟨expandKeys80 (List.replicate 10 0)⟩ [1, 2, 3] :=
  c9_deterministic (List.replicate 10 0) (List.replicate 10 0) [1, 2, 3] _ _ rfl
    (by simp [New]) (by simp [New])

/-- C10: on every valid instance, a source shorter than 8 bytes is
processed as if zero-padded to 8 bytes: both transforms succeed, write
exactly 8 bytes, and agree with the zero-padded source. -/
theorem c10_short_input (key src : List Nat) (c : twineCipher)
    (_hk : key.length = 10 ∨ key.length = 16) (_hc : New key = Except.ok c)
    (h : src.length < 8) :
    (∃ out, Encrypt c src = some out ∧ out.length = 8 ∧
      Encrypt c (src ++ List.replicate (8 - src.length) 0) = some out) ∧
    (∃ out, Decrypt c src = some out ∧ out.length = 8 ∧
      Decrypt c (src ++ List.replicate (8 - src.length) 0) = some out) :=
  transform_short c src h

theorem c10_short_input_witness :
    (∃ out, Encrypt ⟨expandKeys80 (List.replicate 10 0)⟩ [1, 2] = some out ∧ out.length = 8 ∧
      Encrypt ⟨expandKeys80 (List.replicate 10 0)⟩ ([1, 2] ++ List.replicate (8 - [1, 2].length) 0)
        = some out) ∧
    (∃ out, Decrypt ⟨expandKeys80 (List.replicate 10 0)⟩ [1, 2] = some out ∧ out.length = 8 ∧
      Decrypt ⟨expandKeys80 (List.replicate 10 0)⟩ ([1, 2] ++ List.replicate (8 - [1, 2].length) 0)
        = some out) :=
  c10_short_input (List.replicate 10 0) [1, 2] ⟨expandKeys80 (List.replicate 10 0)⟩
    (Or.inl (by simp)) (by simp [New]) (by simp)

end Twine
